import Mathlib

/-
  Verification of the word-formatter repository (src/document_formatter.py)
  against its natural-language specification.

  The development shallowly embeds the relevant parts of the program:
  paragraph text is a `List Char`, content categories are the literal
  strings used by the Python code ("heading", "list_item", "title",
  "quote", "body"), and the dict-based state of the Python classes is
  passed explicitly (association lists keep the insertion order that
  Python dicts guarantee).
-/

namespace DocFormatter

/-! ### Character constants

Characters that are awkward to write literally are named after their
code points. -/

def bsC : Char := Char.ofNat 92
def dqC : Char := Char.ofNat 34
def sqC : Char := Char.ofNat 39
def btC : Char := Char.ofNat 96
def lbC : Char := Char.ofNat 123
def rbC : Char := Char.ofNat 125
def tabC : Char := Char.ofNat 9
def nlC : Char := Char.ofNat 10
def bulletC : Char := Char.ofNat 8226
def enDashC : Char := Char.ofNat 8211
def emDashC : Char := Char.ofNat 8212
def ellipsisC : Char := Char.ofNat 8230
def lqC : Char := Char.ofNat 8220
def rqC : Char := Char.ofNat 8221
def lsqC : Char := Char.ofNat 8216
def rsqC : Char := Char.ofNat 8217

/-! ### Python string primitives

`str.strip()` removes ASCII whitespace from both ends; `str.isupper()`
holds when the string has at least one cased character and no lower-case
character.  (The documents handled by the program use the ASCII range
plus a few fixed punctuation code points, none of which are cased, so
the ASCII notion of cased/upper used here coincides with Python's on the
relevant alphabet.) -/

def isPySpace (c : Char) : Bool :=
  c == ' ' || c == tabC || c == nlC || c == Char.ofNat 13 ||
  c == Char.ofNat 11 || c == Char.ofNat 12

def pyStrip (l : List Char) : List Char :=
  ((l.dropWhile isPySpace).reverse.dropWhile isPySpace).reverse

def isCasedChar (c : Char) : Bool := c.isUpper || c.isLower

def pyIsUpper (l : List Char) : Bool :=
  l.any isCasedChar && l.all (fun c => !c.isLower)

/-! ### The content classifier

`DocumentFormatter._categorize_content_fast` (document_formatter.py
lines 737-763) together with the two pre-compiled patterns

  HEADING_PATTERN = `^\d+\.|^[A-Z][^.!?]*$`   (lines 607)
  LIST_PATTERN    = `^[•\-\*]|^\d+[.).]`      (line 608)

`re.match` anchors at the start only, so the first alternative of each
pattern is a prefix match while `^[A-Z][^.!?]*$` must cover the whole
(stripped) text. -/

def matchNumDot (l : List Char) : Bool :=
  let ds := l.takeWhile Char.isDigit
  !ds.isEmpty && (l.drop ds.length).head? == some '.'

def matchCapNoEnd (l : List Char) : Bool :=
  match l with
  | [] => false
  | c :: rest => c.isUpper && rest.all (fun d => !(d == '.' || d == '!' || d == '?'))

def headingMatch (l : List Char) : Bool := matchNumDot l || matchCapNoEnd l

def listMatch (l : List Char) : Bool :=
  (match l.head? with
   | some c => c == bulletC || c == '-' || c == '*'
   | none => false) ||
  (let ds := l.takeWhile Char.isDigit
   !ds.isEmpty &&
     (match (l.drop ds.length).head? with
      | some c => c == '.' || c == ')'
      | none => false))

def categorizeContentFast (text : List Char) : String :=
  let ts := pyStrip text
  let n := ts.length
  if n = 0 then "body"
  else if pyIsUpper ts = true ∧ n < 50 then "title"
  else if ts.head? = some dqC ∨ ts.head? = some sqC then "quote"
  else if n < 100 ∧ headingMatch ts = true then "heading"
  else if listMatch ts = true then "list_item"
  else "body"

/-- Quotation marks as the specification describes them: straight double,
straight single, and the typographic variants of either.  This predicate
follows the spec's words; it is only used to state claims about the
quote rule, never as part of the embedded program. -/
def isQuoteMarkSpec (c : Char) : Bool :=
  c == dqC || c == sqC || c == lqC || c == rqC || c == lsqC || c == rsqC

/-- C1: the input consisting of HELLO enclosed in straight double quotes
satisfies both the all-upper-case-short rule and the leading-quote rule,
and `categorizeContentFast` classifies it as `title`, because the
upper-case rule is checked first. -/
theorem c1_quoted_allcaps_is_title :
    pyIsUpper (pyStrip (String.toList "\x22HELLO\x22")) = true
    ∧ (pyStrip (String.toList "\x22HELLO\x22")).head? = some dqC
    ∧ categorizeContentFast (String.toList "\x22HELLO\x22") = "title" := by
  decide

/-- An input whose first character is a typographic left double quote,
followed by lower-case text. -/
def c2Input : List Char := lqC :: String.toList "hello"

/-- C2 counterexample: `c2Input` is non-empty after stripping, is not
caught by the upper-case title rule, and starts with a quotation mark in
the spec's sense (a typographic double quote), yet
`categorizeContentFast` returns `body`, not `quote`: the code only
recognises the straight quote characters. -/
theorem c2_counterexample :
    pyStrip c2Input ≠ []
    ∧ ¬ (pyIsUpper (pyStrip c2Input) = true ∧ (pyStrip c2Input).length < 50)
    ∧ isQuoteMarkSpec ((pyStrip c2Input).headD ' ') = true
    ∧ categorizeContentFast c2Input ≠ "quote"
    ∧ categorizeContentFast c2Input = "body" := by
  decide

/-- C2 amended: for every string that is not empty/whitespace-only and
not caught by the upper-case title rule, if its first character is a
STRAIGHT quotation mark (straight double or straight single; the
typographic variants are not recognised), the classifier returns
`quote`. -/
theorem c2_amended (s : List Char)
    (hne : pyStrip s ≠ [])
    (hnt : ¬ (pyIsUpper (pyStrip s) = true ∧ (pyStrip s).length < 50))
    (hq : (pyStrip s).head? = some dqC ∨ (pyStrip s).head? = some sqC) :
    categorizeContentFast s = "quote" := by
  have h0 : ¬ (pyStrip s).length = 0 := by
    simpa [List.length_eq_zero] using hne
  unfold categorizeContentFast
  simp only [if_neg h0, if_neg hnt, if_pos hq]

/-- Witness for `c2_amended` at a concrete input starting with a straight
single quote. -/
theorem c2_amended_witness :
    categorizeContentFast (String.toList "\x27abc") = "quote" :=
  c2_amended (String.toList "\x27abc") (by decide) (by decide) (by decide)

/-! ### Style records and the selector

`DocumentFormatter._prepare_style_mapping` (lines 780-809).  A style's
extracted data is a Python dict with keys `type`, `name`, optionally
`font`, `paragraph` and `primary_content_type`; `template_styles` is a
dict name -> data whose insertion order we keep as an association list.
Font/paragraph attribute sets are association lists of attribute name to
a value rendered as a string. -/

structure StyleRec where
  kind : String
  fontAttrs : List (String × String)
  paraAttrs : List (String × String)
  primary : Option String
deriving DecidableEq

/-- `style_data.get('primary_content_type', 'body')` (line 785): a style
with no observed primary content type is grouped under body. -/
def effPrimary (r : StyleRec) : String := r.primary.getD "body"

/-- Step 1 of `_prepare_style_mapping` (lines 782-791): group the styles
by effective primary content type and cache the first style of each
group, i.e. the first style (in template insertion order) whose
effective primary type is the category. -/
def phase1 (styles : List (String × StyleRec)) (ct : String) : Option String :=
  (styles.find? (fun p => effPrimary p.2 == ct)).map Prod.fst

/-- Python `name.lower()` on the ASCII names the program handles,
rendered as a character list (kernel-reducible, unlike
`String.toLower`). -/
def toLowerCh (s : String) : List Char := s.data.map Char.toLower

/-- `style_name_lower_map = {name.lower(): name for name in ...}`
(line 794): a dict comprehension, so on a lower-case collision the LAST
style wins; membership is exact key equality. -/
def lowerLookup (styles : List (String × StyleRec)) (p : String) : Option String :=
  (styles.reverse.find? (fun q => toLowerCh q.1 == p.data)).map Prod.fst

/-- The inner pattern loop of lines 799-802: first pattern that is a key
of the lower-case map wins. -/
def findPat (styles : List (String × StyleRec)) : List String → Option String
  | [] => none
  | p :: ps =>
    match lowerLookup styles p with
    | some n => some n
    | none => findPat styles ps

/-- `CONTENT_TYPES.values()` in dict insertion order (lines 611-617). -/
def contentTypeValues : List String :=
  ["heading", "list_item", "title", "quote", "body"]

/-- The pattern priority list `[content_type, 'heading', 'title',
'normal']` of line 799. -/
def fallbackPatterns (ct : String) : List String :=
  [ct, "heading", "title", "normal"]

/-- Step 2 of `_prepare_style_mapping` (lines 793-802). -/
def phase2 (styles : List (String × StyleRec)) (ct : String) : Option String :=
  findPat styles (fallbackPatterns ct)

/-- The full cache entry for a category: step 1, else step 2, else the
ultimate fallback `next(iter(self.template_styles.keys()))` of lines
804-809 (the first template style), provided the registry is
non-empty. -/
def selectStyle (styles : List (String × StyleRec)) (ct : String) : Option String :=
  match phase1 styles ct with
  | some n => some n
  | none =>
    match phase2 styles ct with
    | some n => some n
    | none => styles.head?.map Prod.fst

/-- Substring test over character lists (used only to state the spec's
reading of the name-based fallback). -/
def isSubstrCh (pat : List Char) : List Char → Bool
  | [] => pat.isEmpty
  | c :: rest => List.isPrefixOf pat (c :: rest) || isSubstrCh pat rest

/-- Modelled from the spec: step 2 as the specification words it — the
category resolves to a style whose lower-cased name CONTAINS (as a
substring) the first matching pattern.  Used only for comparison with
the code's `phase2`. -/
def phase2Spec (styles : List (String × StyleRec)) (ct : String) : Option String :=
  (fallbackPatterns ct).findSome? (fun p =>
    (styles.find? (fun q => isSubstrCh p.data (toLowerCh q.1))).map Prod.fst)

/-- A style record carrying no attributes and no observed primary
content type. -/
def blankRec : StyleRec := ⟨"paragraph", [], [], none⟩

/-- Registry for the C3 counterexample: two styles, neither with an
observed primary content type; the second one is named Big Heading. -/
def s3Reg : List (String × StyleRec) :=
  [("AAA", blankRec), ("Big Heading", blankRec)]

/-- C3 counterexample: for the category heading, unresolved by step 1,
the spec's substring fallback would resolve it to Big Heading (whose
lower-cased name contains the pattern heading), but the code's exact-key
lookup finds nothing and the final cache entry is the arbitrary fallback
AAA, whose name does not contain the pattern. -/
theorem c3_counterexample :
    phase1 s3Reg "heading" = none
    ∧ phase2Spec s3Reg "heading" = some "Big Heading"
    ∧ phase2 s3Reg "heading" = none
    ∧ selectStyle s3Reg "heading" = some "AAA"
    ∧ isSubstrCh "heading".data (toLowerCh "AAA") = false := by
  decide

lemma findPat_eq_some (styles : List (String × StyleRec)) :
    ∀ ps n, findPat styles ps = some n →
      ∃ pre p post, ps = pre ++ p :: post
        ∧ (∀ q ∈ pre, lowerLookup styles q = none)
        ∧ lowerLookup styles p = some n := by
  intro ps
  induction ps with
  | nil => intro n h; simp [findPat] at h
  | cons p ps ih =>
    intro n h
    unfold findPat at h
    cases hl : lowerLookup styles p with
    | some m =>
      rw [hl] at h
      refine ⟨[], p, ps, rfl, by intro q hq; simp at hq, ?_⟩
      simpa [hl] using h
    | none =>
      rw [hl] at h
      obtain ⟨pre, q, post, hps, hpre, hq⟩ := ih n h
      refine ⟨p :: pre, q, post, by rw [hps]; rfl, ?_, hq⟩
      intro x hx
      rcases List.mem_cons.mp hx with hx | hx
      · subst hx; exact hl
      · exact hpre x hx

lemma lowerLookup_eq_some (styles : List (String × StyleRec)) (p n : String)
    (h : lowerLookup styles p = some n) :
    toLowerCh n = p.data ∧ ∃ r, (n, r) ∈ styles := by
  unfold lowerLookup at h
  cases hf : styles.reverse.find? (fun q => toLowerCh q.1 == p.data) with
  | none => rw [hf] at h; simp at h
  | some q =>
    rw [hf] at h
    have hq : q.1 = n := by simpa using h
    have heq := List.find?_some hf
    have hmem : q ∈ styles := List.mem_reverse.mp (List.mem_of_find?_eq_some hf)
    subst hq
    refine ⟨by simpa using heq, q.2, by simpa using hmem⟩

/-- C3 amended: for every category left unresolved by step 1 that step 2
does resolve, the chosen style is one whose lower-cased name EQUALS (not
merely contains) the first pattern, in the priority order category name,
heading, title, normal, that is the lower-cased name of some style; all
earlier patterns match no style name exactly. -/
theorem c3_amended (styles : List (String × StyleRec)) (ct n : String)
    (h1 : phase1 styles ct = none) (h2 : phase2 styles ct = some n) :
    selectStyle styles ct = some n
    ∧ ∃ pre p post, fallbackPatterns ct = pre ++ p :: post
        ∧ (∀ q ∈ pre, lowerLookup styles q = none)
        ∧ lowerLookup styles p = some n
        ∧ toLowerCh n = p.data
        ∧ ∃ r, (n, r) ∈ styles := by
  constructor
  · unfold selectStyle
    rw [h1, h2]
  · obtain ⟨pre, p, post, hps, hpre, hp⟩ := findPat_eq_some styles (fallbackPatterns ct) n h2
    obtain ⟨hlow, r, hr⟩ := lowerLookup_eq_some styles p n hp
    exact ⟨pre, p, post, hps, hpre, hp, hlow, r, hr⟩

/-- Registry for the C3 witness: a style whose lower-cased name equals
the pattern heading. -/
def w3Reg : List (String × StyleRec) := [("X", blankRec), ("Heading", blankRec)]

/-- Witness for `c3_amended`: category quote on `w3Reg` is unresolved by
step 1 and resolved by step 2 to the style Heading. -/
theorem c3_amended_witness :
    selectStyle w3Reg "quote" = some "Heading"
    ∧ ∃ pre p post, fallbackPatterns "quote" = pre ++ p :: post
        ∧ (∀ q ∈ pre, lowerLookup w3Reg q = none)
        ∧ lowerLookup w3Reg p = some "Heading"
        ∧ toLowerCh "Heading" = p.data
        ∧ ∃ r, ("Heading", r) ∈ w3Reg :=
  c3_amended w3Reg "quote" "Heading" (by decide) (by decide)

/-- C5: for every non-empty style registry and every one of the five
content categories, the selection cache resolves the category to some
style name (via step 1, step 2 or the ultimate fallback). -/
theorem c5_selector_total (styles : List (String × StyleRec))
    (hne : styles ≠ []) (ct : String) (_hct : ct ∈ contentTypeValues) :
    (selectStyle styles ct).isSome = true := by
  cases styles with
  | nil => exact absurd rfl hne
  | cons x xs =>
    unfold selectStyle
    cases h1 : phase1 (x :: xs) ct with
    | some n => rfl
    | none =>
      cases h2 : phase2 (x :: xs) ct with
      | some n => rfl
      | none => rfl

/-- Witness for `c5_selector_total` on a concrete one-style registry and
the category quote. -/
theorem c5_selector_total_witness :
    (selectStyle w3Reg "quote").isSome = true :=
  c5_selector_total w3Reg (by decide) "quote" (by decide)

/-! ### The usage extractor

`DocumentFormatter._analyze_content_usage_batch` (lines 698-735).  A
walked paragraph carries its text and the name of the style it uses;
body paragraphs and table-cell paragraphs are concatenated into one list
(lines 703-710), a paragraph is kept when its stripped text is longer
than 2 characters (line 719), its stripped text is classified, and the
sample is recorded only when the style name occurs in
`template_styles` (line 726). -/

structure SrcPara where
  text : List Char
  styleName : String

def styleSamples (tmplNames : List String) (paras : List SrcPara)
    (s : String) : List String :=
  if tmplNames.contains s then
    (paras.filter
        (fun p => decide (2 < (pyStrip p.text).length) && p.styleName == s)).map
      (fun p => categorizeContentFast (pyStrip p.text))
  else []

/-- Number of occurrences of `x` in a sample list. -/
def countOcc (x : String) : List String → Nat
  | [] => 0
  | y :: ys => (if y = x then 1 else 0) + countOcc x ys

/-- Index of the first occurrence of `x` (length of the list when `x`
is absent). -/
def firstOccIdx (x : String) : List String → Nat
  | [] => 0
  | y :: ys => if y = x then 0 else firstOccIdx x ys + 1

/-- `Counter(content_list).most_common(1)[0][0]` (line 734): the element
of maximal count; on equal counts `Counter` keeps first-encountered
order, so the element whose first occurrence is leftmost wins.  `bestOf
l m` scans `m` keeping the earlier element unless a strictly more
frequent (in `l`) one appears further right. -/
def bestOf (l : List String) : List String → Option String
  | [] => none
  | x :: xs =>
    match bestOf l xs with
    | none => some x
    | some b => if countOcc b l > countOcc x l then some b else some x

def mostCommon (l : List String) : Option String := bestOf l l

/-- The primary content type recorded for style `s` (lines 731-735):
only styles with a non-empty sample list receive one. -/
def primaryOf (tmplNames : List String) (paras : List SrcPara)
    (s : String) : Option String :=
  mostCommon (styleSamples tmplNames paras s)

/-- Registry for the C4 counterexample: a single never-used style. -/
def s4Reg : List (String × StyleRec) := [("Fancy", blankRec)]

/-- C4 counterexample: every style of `s4Reg` has an unset primary
content type, yet step-1 grouping resolves the body category to the
never-used style Fancy, because `style_data.get('primary_content_type',
'body')` defaults an unset primary to body. -/
theorem c4_counterexample :
    s4Reg.all (fun p => p.2.primary == none) = true
    ∧ phase1 s4Reg "body" = some "Fancy" := by
  decide

/-- C4 amended: extraction does leave `primaryContentCategory` unset for
a style with zero usage samples, but step-1 grouping does NOT skip such
styles: it treats an unset primary as body, so a never-used style IS
grouped under (and can be selected for) the body category. -/
theorem c4_amended :
    (∀ tmplNames paras s, styleSamples tmplNames paras s = [] →
       primaryOf tmplNames paras s = none)
    ∧ (∀ name r rest, r.primary = none →
       phase1 ((name, r) :: rest) "body" = some name) := by
  constructor
  · intro tmplNames paras s h
    unfold primaryOf
    rw [h]
    rfl
  · intro name r rest h
    unfold phase1
    have : effPrimary r = "body" := by unfold effPrimary; rw [h]; rfl
    simp [List.find?, this]

/-- Witness for `c4_amended`: the style Fancy, used by no paragraph,
keeps an unset primary content type, and step-1 grouping nevertheless
resolves body to it. -/
theorem c4_amended_witness :
    primaryOf ["Fancy"] [] "Fancy" = none
    ∧ phase1 (("Fancy", blankRec) :: []) "body" = some "Fancy" :=
  ⟨c4_amended.1 ["Fancy"] [] "Fancy" (by decide),
   c4_amended.2 "Fancy" blankRec [] rfl⟩

lemma bestOf_isSome (l : List String) :
    ∀ m, m ≠ [] → (bestOf l m).isSome = true := by
  intro m hm
  cases m with
  | nil => exact absurd rfl hm
  | cons x xs =>
    unfold bestOf
    cases bestOf l xs with
    | none => rfl
    | some b =>
      by_cases h : countOcc b l > countOcc x l <;> simp [h]

lemma bestOf_mem (l : List String) :
    ∀ m b, bestOf l m = some b → b ∈ m := by
  intro m
  induction m with
  | nil => intro b h; simp [bestOf] at h
  | cons x xs ih =>
    intro b h
    unfold bestOf at h
    cases hb : bestOf l xs with
    | none =>
      rw [hb] at h
      simp at h
      simp [h]
    | some c =>
      rw [hb] at h
      dsimp only at h
      by_cases hc : countOcc c l > countOcc x l
      · rw [if_pos hc] at h
        have : c = b := by simpa using h
        subst this
        exact List.mem_cons_of_mem x (ih c hb)
      · rw [if_neg hc] at h
        have : x = b := by simpa using h
        simp [this]

lemma bestOf_count (l : List String) :
    ∀ m b, bestOf l m = some b → ∀ y ∈ m, countOcc y l ≤ countOcc b l := by
  intro m
  induction m with
  | nil => intro b h; simp [bestOf] at h
  | cons x xs ih =>
    intro b h y hy
    unfold bestOf at h
    cases hb : bestOf l xs with
    | none =>
      rw [hb] at h
      have hx : x = b := by simpa using h
      have hxs : xs = [] := by
        cases xs with
        | nil => rfl
        | cons z zs =>
          have := bestOf_isSome l (z :: zs) (by simp)
          rw [hb] at this
          simp at this
      subst hx
      rcases List.mem_cons.mp hy with hy | hy
      · subst hy; exact Nat.le_refl _
      · rw [hxs] at hy; simp at hy
    | some c =>
      rw [hb] at h
      dsimp only at h
      by_cases hc : countOcc c l > countOcc x l
      · rw [if_pos hc] at h
        have : c = b := by simpa using h
        subst this
        rcases List.mem_cons.mp hy with hy | hy
        · subst hy; exact Nat.le_of_lt hc
        · exact ih c hb y hy
      · rw [if_neg hc] at h
        have : x = b := by simpa using h
        subst this
        rcases List.mem_cons.mp hy with hy | hy
        · subst hy; exact Nat.le_refl _
        · exact Nat.le_trans (ih c hb y hy) (Nat.le_of_not_lt hc)

lemma bestOf_tie (l : List String) :
    ∀ m b, bestOf l m = some b → ∀ y ∈ m, countOcc y l = countOcc b l →
      firstOccIdx b m ≤ firstOccIdx y m := by
  intro m
  induction m with
  | nil => intro b h; simp [bestOf] at h
  | cons x xs ih =>
    intro b h y hy hcnt
    unfold bestOf at h
    cases hb : bestOf l xs with
    | none =>
      rw [hb] at h
      have hx : x = b := by simpa using h
      subst hx
      simp [firstOccIdx]
    | some c =>
      rw [hb] at h
      dsimp only at h
      by_cases hc : countOcc c l > countOcc x l
      · rw [if_pos hc] at h
        have hcb : c = b := by simpa using h
        subst hcb
        have hbx : ¬ (x = c) := by
          intro hxc
          rw [hxc] at hc
          exact Nat.lt_irrefl _ hc
        have hyx : ¬ (y = x) := by
          intro hyx
          rw [hyx] at hcnt
          rw [hcnt] at hc
          exact Nat.lt_irrefl _ hc
        have hyxs : y ∈ xs := by
          rcases List.mem_cons.mp hy with h1 | h1
          · exact absurd h1 hyx
          · exact h1
        have hxc : ¬ (x = c) := hbx
        unfold firstOccIdx
        rw [if_neg hxc, if_neg (fun h => hyx h.symm)]
        exact Nat.succ_le_succ (ih c hb y hyxs hcnt)
      · rw [if_neg hc] at h
        have hx : x = b := by simpa using h
        subst hx
        simp [firstOccIdx]

/-- C8: whenever extraction assigns a primary content type `p` to a
style, `p` occurs among the style's usage samples, no category occurs
more often than `p` among them, and every category tied with `p` for the
maximal count first occurs no earlier than `p` (stable first-encountered
tie-break). -/
theorem c8_primary_most_frequent (tmplNames : List String)
    (paras : List SrcPara) (s p : String)
    (h : primaryOf tmplNames paras s = some p) :
    p ∈ styleSamples tmplNames paras s
    ∧ (∀ c ∈ styleSamples tmplNames paras s,
        countOcc c (styleSamples tmplNames paras s)
          ≤ countOcc p (styleSamples tmplNames paras s))
    ∧ (∀ c ∈ styleSamples tmplNames paras s,
        countOcc c (styleSamples tmplNames paras s)
            = countOcc p (styleSamples tmplNames paras s) →
        firstOccIdx p (styleSamples tmplNames paras s)
          ≤ firstOccIdx c (styleSamples tmplNames paras s)) := by
  unfold primaryOf mostCommon at h
  exact ⟨bestOf_mem _ _ p h, bestOf_count _ _ p h, bestOf_tie _ _ p h⟩

/-- Paragraphs for the C8 witness: two paragraphs using the style Body
Text, one classified body, one classified heading — a tie broken in
favour of the first-encountered category. -/
def w8Paras : List SrcPara :=
  [⟨String.toList "This is a sentence.", "Body Text"⟩,
   ⟨String.toList "1. Intro", "Body Text"⟩]

/-- Witness for `c8_primary_most_frequent` on `w8Paras`. -/
theorem c8_primary_most_frequent_witness :
    "body" ∈ styleSamples ["Body Text"] w8Paras "Body Text"
    ∧ (∀ c ∈ styleSamples ["Body Text"] w8Paras "Body Text",
        countOcc c (styleSamples ["Body Text"] w8Paras "Body Text")
          ≤ countOcc "body" (styleSamples ["Body Text"] w8Paras "Body Text"))
    ∧ (∀ c ∈ styleSamples ["Body Text"] w8Paras "Body Text",
        countOcc c (styleSamples ["Body Text"] w8Paras "Body Text")
            = countOcc "body" (styleSamples ["Body Text"] w8Paras "Body Text") →
        firstOccIdx "body" (styleSamples ["Body Text"] w8Paras "Body Text")
          ≤ firstOccIdx c (styleSamples ["Body Text"] w8Paras "Body Text")) :=
  c8_primary_most_frequent ["Body Text"] w8Paras "Body Text" "body" (by decide)

/-! ### LaTeX character escaping

`LaTeXConverter._escape_latex_chars` (lines 568-596).  The `escape_chars`
dict literal of the source has two quirks that the embedding reproduces
at runtime value level:

  * lines 584-585 are parsed by Python as ONE entry whose key is the
    triple-quoted string spanning both lines (it contains a tab from the
    processed backslash-t escape, a newline, and the 12-space indent of
    line 585), with value the raw string of line 585;
  * the straight-double-quote key occurs three times (lines 582, 586 and
    587); a dict literal keeps the position of the first occurrence and
    the value of the last, so the runtime entry is the substitution of
    line 587.

The replacement loop (lines 593-594) applies `str.replace` — a full
non-overlapping left-to-right replacement — once per table entry, in
dict iteration order. -/

/-- The accidental multi-character key produced by the triple-quoted
string of lines 584-585. -/
def tripleQuoteKey : List Char :=
  String.toList ": r" ++ [sqC, tabC] ++ String.toList "extquoteleft" ++
  [lbC, rbC, sqC, ','] ++ [nlC] ++ List.replicate 12 ' '

/-- The runtime value of `escape_chars`, in dict iteration order. -/
def escapeTable : List (List Char × List Char) :=
  [ ([bsC], bsC :: String.toList "textbackslash" ++ [lbC, rbC]),
    ([lbC], [bsC, lbC]),
    ([rbC], [bsC, rbC]),
    (['$'], [bsC, '$']),
    (['&'], [bsC, '&']),
    (['%'], [bsC, '%']),
    (['#'], [bsC, '#']),
    (['^'], bsC :: String.toList "textasciicircum" ++ [lbC, rbC]),
    (['_'], [bsC, '_']),
    (['~'], bsC :: String.toList "textasciitilde" ++ [lbC, rbC]),
    ([dqC], bsC :: String.toList "textquotedblright" ++ [lbC, rbC]),
    ([btC], [bsC, btC, lbC, rbC]),
    (tripleQuoteKey, bsC :: String.toList "textquoteright" ++ [lbC, rbC]),
    ([enDashC], String.toList "--"),
    ([emDashC], String.toList "---"),
    ([ellipsisC], bsC :: String.toList "ldots" ++ [lbC, rbC]) ]

/-- Python `str.replace`: non-overlapping left-to-right replacement of
every occurrence of `needle`.  The fuel argument (consumed once per
examined character) keeps the recursion structural so that the kernel
can evaluate it; `s.length` fuel always suffices for a non-empty
needle. -/
def replaceAllFuel (needle rep : List Char) : Nat → List Char → List Char
  | _, [] => []
  | 0, s => s
  | fuel + 1, c :: rest =>
    if needle.isPrefixOf (c :: rest) then
      rep ++ replaceAllFuel needle rep fuel ((c :: rest).drop needle.length)
    else c :: replaceAllFuel needle rep fuel rest

def replaceAll (needle rep s : List Char) : List Char :=
  if needle.isEmpty then s else replaceAllFuel needle rep s.length s

/-- The loop of lines 593-594: each table entry applied in order to the
result of the previous replacements. -/
def escapeLatexChars (text : List Char) : List Char :=
  escapeTable.foldl (fun t kv => replaceAll kv.1 kv.2 t) text

/-- Table lookup for a single character. -/
def escLookup (c : Char) : Option (List Char) :=
  (escapeTable.find? (fun kv => kv.1 == [c])).map Prod.snd

/-- Modelled from the spec: escaping as a single raw-text scan over the
input — every character of the ORIGINAL text is substituted through the
table exactly once, so no character introduced by a replacement is
itself re-escaped.  Used only for comparison with the code's
`escapeLatexChars`. -/
def singleScanEscape : List Char → List Char
  | [] => []
  | c :: rest => ((escLookup c).getD [c]) ++ singleScanEscape rest

/-- C6: on the one-character input backslash the code first substitutes
backslash-textbackslash-braces and then re-escapes the two braces that
this substitution introduced, producing textbackslash followed by
escaped braces — different from the single-raw-scan result, so the
escaping is NOT a single scan and double-escaping does occur. -/
theorem c6_backslash_double_escaped :
    escapeLatexChars [bsC]
      = bsC :: String.toList "textbackslash" ++ [bsC, lbC, bsC, rbC]
    ∧ singleScanEscape [bsC]
      = bsC :: String.toList "textbackslash" ++ [lbC, rbC]
    ∧ escapeLatexChars [bsC] ≠ singleScanEscape [bsC] := by
  decide

/-! ### Style materialization

`DocumentFormatter._batch_update_styles` (lines 811-823) and the
reserved built-in names (lines 620-623). -/

def BUILTIN_STYLES : List String :=
  ["Normal", "Heading 1", "Heading 2", "Heading 3", "Heading 4",
   "Heading 5", "Heading 6", "Title", "Subtitle", "Header", "Footer"]

/-- What the batch loop does with one template style: update it when the
target already has a style of that name, silently skip it when it is a
reserved built-in absent from the target, create it otherwise. -/
inductive StyleOp where
  | updateExisting : String → StyleOp
  | createNew : String → StyleOp
  | skipReserved : String → StyleOp
deriving DecidableEq

def batchStyleOps (existing : List String)
    (tmpl : List (String × StyleRec)) : List StyleOp :=
  tmpl.map (fun p =>
    if existing.contains p.1 then StyleOp.updateExisting p.1
    else if BUILTIN_STYLES.contains p.1 then StyleOp.skipReserved p.1
    else StyleOp.createNew p.1)

/-- C7: the batch style pass never creates a reserved built-in: a
creation operation is emitted only for a name that is neither reserved
nor present in the target, and a reserved name absent from the target is
silently skipped. -/
theorem c7_reserved_never_created (existing : List String)
    (tmpl : List (String × StyleRec)) :
    (∀ name, StyleOp.createNew name ∈ batchStyleOps existing tmpl →
      BUILTIN_STYLES.contains name = false ∧ existing.contains name = false)
    ∧ (∀ name r, (name, r) ∈ tmpl → BUILTIN_STYLES.contains name = true →
      existing.contains name = false →
      StyleOp.skipReserved name ∈ batchStyleOps existing tmpl) := by
  constructor
  · intro name h
    obtain ⟨p, _hp, hop⟩ := List.mem_map.mp h
    by_cases h1 : existing.contains p.1
    · rw [if_pos h1] at hop; exact absurd hop (by simp)
    · rw [if_neg h1] at hop
      by_cases h2 : BUILTIN_STYLES.contains p.1
      · rw [if_pos h2] at hop; exact absurd hop (by simp)
      · rw [if_neg h2] at hop
        have : p.1 = name := by simpa using hop
        subst this
        exact ⟨Bool.eq_false_iff.mpr h2, Bool.eq_false_iff.mpr h1⟩
  · intro name r hmem hb he
    refine List.mem_map.mpr ⟨(name, r), hmem, ?_⟩
    have hc : existing.contains (name, r).1 = false := he
    rw [if_neg (by rw [hc]; exact Bool.false_ne_true), if_pos hb]

/-- Concrete data for the C7 witness. -/
def c7Existing : List String := ["Normal"]

def c7Tmpl : List (String × StyleRec) :=
  [("Normal", blankRec), ("Title", blankRec), ("MyQuote", blankRec)]

/-- Witness for `c7_reserved_never_created`: in a run where the target
has only Normal, the only created style is the non-reserved MyQuote and
the absent built-in Title is skipped. -/
theorem c7_reserved_never_created_witness :
    (BUILTIN_STYLES.contains "MyQuote" = false
      ∧ c7Existing.contains "MyQuote" = false)
    ∧ StyleOp.skipReserved "Title" ∈ batchStyleOps c7Existing c7Tmpl :=
  ⟨(c7_reserved_never_created c7Existing c7Tmpl).1 "MyQuote" (by decide),
   (c7_reserved_never_created c7Existing c7Tmpl).2 "Title" blankRec
     (by decide) (by decide) (by decide)⟩

/-! ### Style update with fallible attribute setters

`DocumentFormatter._update_style_fast` (lines 825-847) sets each
recorded attribute with `setattr`; a setter may throw (e.g. a malformed
color).  The function body contains NO try/except: the exception
propagates and is caught only by the per-style try of
`_batch_update_styles` (lines 816-823).  The embedding abstracts the
container's setters by a predicate `failsOn` saying which
attribute/value assignments throw, and returns the list of assignments
actually performed together with the name of the failing attribute, if
any. -/

def applySetAttrs (failsOn : String × String → Bool) :
    List (String × String) → List (String × String) × Option String
  | [] => ([], none)
  | av :: rest =>
    if failsOn av then ([], some av.1)
    else
      match applySetAttrs failsOn rest with
      | (applied, err) => (av :: applied, err)

/-- `_update_style_fast`: font attributes first, then (only when the
font loop did not throw) the paragraph attributes. -/
def updateStyleFast (failsOn : String × String → Bool) (r : StyleRec) :
    List (String × String) × Option String :=
  match applySetAttrs failsOn r.fontAttrs with
  | (fontApplied, some e) => (fontApplied, some e)
  | (fontApplied, none) =>
    match applySetAttrs failsOn r.paraAttrs with
    | (paraApplied, err) => (fontApplied ++ paraApplied, err)

/-- Per-style outcome of `_batch_update_styles`: which assignments were
performed on that style and whether its update threw. -/
structure StyleOutcome where
  name : String
  applied : List (String × String)
  err : Option String
deriving DecidableEq

/-- `_batch_update_styles` (lines 811-823): existing styles are updated,
absent reserved built-ins are skipped, other absent styles are created
(then updated identically); each style's exception is caught by the
per-style try, so every template style produces an outcome. -/
def batchUpdateStyles (failsOn : String × String → Bool)
    (existing : List String) (tmpl : List (String × StyleRec)) :
    List StyleOutcome :=
  tmpl.map (fun p =>
    if existing.contains p.1 then
      ⟨p.1, (updateStyleFast failsOn p.2).1, (updateStyleFast failsOn p.2).2⟩
    else if BUILTIN_STYLES.contains p.1 then ⟨p.1, [], none⟩
    else ⟨p.1, (updateStyleFast failsOn p.2).1, (updateStyleFast failsOn p.2).2⟩)

/-- Warnings (lines 822-823): `logger.warning` is reached only when
`self.debug` is set. -/
def warningsOf (debug : Bool) (outcomes : List StyleOutcome) : List String :=
  if debug then (outcomes.filter (fun o => o.err.isSome)).map StyleOutcome.name
  else []

/-- A setter model in which assigning the `bold` attribute throws. -/
def failBold : String × String → Bool := fun av => av.1 == "bold"

/-- A style whose first font attribute throws and whose second would
succeed. -/
def r9 : StyleRec :=
  ⟨"paragraph", [("bold", "True"), ("italic", "True")], [], none⟩

/-- C9 counterexample: when setting the first font attribute of `r9`
throws, the update of that same style stops there — the remaining
attribute `italic` is NOT applied — and with debug off no warning is
emitted either; only the continuation to other styles holds. -/
theorem c9_counterexample :
    updateStyleFast failBold r9 = ([], some "bold")
    ∧ ("italic", "True") ∉ (updateStyleFast failBold r9).1
    ∧ warningsOf false (batchUpdateStyles failBold ["S"] [("S", r9)]) = [] := by
  decide

lemma applySetAttrs_fail_at (failsOn : String × String → Bool)
    (a v : String) (hf : failsOn (a, v) = true) :
    ∀ pre post, (∀ x ∈ pre, failsOn x = false) →
      applySetAttrs failsOn (pre ++ (a, v) :: post) = (pre, some a) := by
  intro pre
  induction pre with
  | nil =>
    intro post _
    simp only [List.nil_append]
    unfold applySetAttrs
    rw [if_pos hf]
  | cons x xs ih =>
    intro post hpre
    have hx : failsOn x = false := hpre x (List.mem_cons_self x xs)
    have hxs : ∀ y ∈ xs, failsOn y = false :=
      fun y hy => hpre y (List.mem_cons_of_mem x hy)
    show applySetAttrs failsOn (x :: (xs ++ (a, v) :: post)) = (x :: xs, some a)
    unfold applySetAttrs
    rw [if_neg (by rw [hx]; exact Bool.false_ne_true)]
    rw [ih post hxs]

lemma applySetAttrs_all_ok (failsOn : String × String → Bool) :
    ∀ l, (∀ x ∈ l, failsOn x = false) →
      applySetAttrs failsOn l = (l, none) := by
  intro l
  induction l with
  | nil => intro _; rfl
  | cons x xs ih =>
    intro h
    have hx : failsOn x = false := h x (List.mem_cons_self x xs)
    have hxs : ∀ y ∈ xs, failsOn y = false :=
      fun y hy => h y (List.mem_cons_of_mem x hy)
    unfold applySetAttrs
    rw [if_neg (by rw [hx]; exact Bool.false_ne_true)]
    rw [ih hxs]

/-- C9 amended: when setting one attribute of a style throws — be it a
font attribute or a paragraph-layout attribute — that style's update is
aborted at the failing attribute: the attributes already set remain, the
remaining attributes of that same style are skipped (after a font
failure this includes the whole paragraph-format group; after a layout
failure the font attributes are already fully applied and the remaining
layout attributes are skipped) — the exception is caught at the
per-style level, a warning is emitted only in debug mode, and the run
still processes every remaining style. -/
theorem c9_amended (failsOn : String × String → Bool)
    (k : String) (prim : Option String) :
    (∀ pre post paraA a v,
        (∀ x ∈ pre, failsOn x = false) → failsOn (a, v) = true →
        updateStyleFast failsOn ⟨k, pre ++ (a, v) :: post, paraA, prim⟩
          = (pre, some a))
    ∧ (∀ fontA pre post a v,
        (∀ x ∈ fontA, failsOn x = false) →
        (∀ x ∈ pre, failsOn x = false) → failsOn (a, v) = true →
        updateStyleFast failsOn ⟨k, fontA, pre ++ (a, v) :: post, prim⟩
          = (fontA ++ pre, some a))
    ∧ (∀ existing tmpl,
        (batchUpdateStyles failsOn existing tmpl).length = tmpl.length)
    ∧ (∀ outcomes, warningsOf false outcomes = []) := by
  refine ⟨?_, ?_, ?_, ?_⟩
  · intro pre post paraA a v hpre hf
    unfold updateStyleFast
    simp only
    rw [applySetAttrs_fail_at failsOn a v hf pre post hpre]
  · intro fontA pre post a v hfont hpre hf
    unfold updateStyleFast
    simp only
    rw [applySetAttrs_all_ok failsOn fontA hfont,
        applySetAttrs_fail_at failsOn a v hf pre post hpre]
  · intro existing tmpl
    unfold batchUpdateStyles
    exact List.length_map tmpl _
  · intro outcomes
    rfl

/-- A style used by the C9 witness: one successful font attribute, then
the throwing `bold`, then attributes that must be skipped. -/
def r9b : StyleRec :=
  ⟨"paragraph",
   [("size", "12")] ++ ("bold", "True") :: [("underline", "True")],
   [("alignment", "CENTER")], none⟩

/-- A setter model in which assigning the `alignment` layout attribute
throws. -/
def failAlign : String × String → Bool := fun av => av.1 == "alignment"

/-- A style for the layout-failure case of the C9 witness: all font
attributes succeed, then a layout attribute throws mid-group. -/
def r9c : StyleRec :=
  ⟨"paragraph", [("size", "12")],
   [("space_before", "6")] ++ ("alignment", "CENTER") :: [("space_after", "6")],
   none⟩

/-- Witness for `c9_amended`: a font-attribute failure on `r9b` and a
layout-attribute failure on `r9c`. -/
theorem c9_amended_witness :
    updateStyleFast failBold r9b = ([("size", "12")], some "bold")
    ∧ updateStyleFast failAlign r9c
        = ([("size", "12")] ++ [("space_before", "6")], some "alignment")
    ∧ (batchUpdateStyles failBold ["S"] [("S", r9b)]).length = 1
    ∧ warningsOf false [] = [] :=
  ⟨(c9_amended failBold "paragraph" none).1 [("size", "12")]
      [("underline", "True")] [("alignment", "CENTER")] "bold" "True"
      (by decide) (by decide),
   (c9_amended failAlign "paragraph" none).2.1 [("size", "12")]
      [("space_before", "6")] [("space_after", "6")] "alignment" "CENTER"
      (by decide) (by decide) (by decide),
   (c9_amended failBold "paragraph" none).2.2.1 ["S"] [("S", r9b)],
   (c9_amended failBold "paragraph" none).2.2.2 []⟩

/-! ### The style-application pass on the target document

`DocumentFormatter.apply_styles_to_target` (lines 765-778) and
`_batch_apply_paragraph_styles` (lines 859-884).  A target paragraph
carries its text and the name of its assigned style; tables nest rows,
cells and cell paragraphs.  The reassignment (lines 871-884) strips the
text, classifies it, looks the category up in the selection cache, and
assigns the resolved style when the target registry has it (the
`KeyError` of a missing style is caught and the paragraph left alone).
Style creation inside `_batch_update_styles` is modelled as succeeding,
which only enlarges the set of assignable names and touches no
paragraph. -/

structure TPar where
  text : List Char
  style : String
deriving DecidableEq

structure TargetDoc where
  styleNames : List String
  paragraphs : List TPar
  tables : List (List (List (List TPar)))
deriving DecidableEq

/-- Names added to the target registry by `_batch_update_styles`: the
template styles that are neither already present nor reserved
built-ins. -/
def createdNames (existing : List String)
    (tmpl : List (String × StyleRec)) : List String :=
  (tmpl.filter (fun p =>
    !(existing.contains p.1) && !(BUILTIN_STYLES.contains p.1))).map Prod.fst

/-- The per-paragraph body of `_batch_apply_paragraph_styles`. -/
def applyToPar (names : List String) (tmpl : List (String × StyleRec))
    (p : TPar) : TPar :=
  let t := pyStrip p.text
  if t.length = 0 then p
  else
    match selectStyle tmpl (categorizeContentFast t) with
    | some best => if names.contains best then ⟨p.text, best⟩ else p
    | none => p

/-- `apply_styles_to_target`: build the selection cache, update/create
styles in the registry, then reassign every body paragraph and every
table-cell paragraph. -/
def applyStylesToTarget (tmpl : List (String × StyleRec))
    (doc : TargetDoc) : TargetDoc :=
  let names := doc.styleNames ++ createdNames doc.styleNames tmpl
  ⟨names,
   doc.paragraphs.map (applyToPar names tmpl),
   doc.tables.map (fun tb => tb.map (fun row => row.map (fun cell =>
     cell.map (applyToPar names tmpl))))⟩

lemma applyToPar_text (names : List String) (tmpl : List (String × StyleRec))
    (p : TPar) : (applyToPar names tmpl p).text = p.text := by
  unfold applyToPar
  by_cases h : (pyStrip p.text).length = 0
  · rw [if_pos h]
  · rw [if_neg h]
    cases selectStyle tmpl (categorizeContentFast (pyStrip p.text)) with
    | none => rfl
    | some best =>
      dsimp only
      by_cases hb : names.contains best
      · rw [if_pos hb]
      · rw [if_neg hb]

lemma map_text_applyToPar (names : List String)
    (tmpl : List (String × StyleRec)) :
    ∀ l : List TPar,
      (l.map (applyToPar names tmpl)).map TPar.text = l.map TPar.text := by
  intro l
  induction l with
  | nil => rfl
  | cons p ps ih =>
    simp only [List.map_cons, applyToPar_text, ih]

lemma map_text_cellList (names : List String)
    (tmpl : List (String × StyleRec)) :
    ∀ row : List (List TPar),
      (row.map (fun cell => cell.map (applyToPar names tmpl))).map
          (fun cell => cell.map TPar.text)
        = row.map (fun cell => cell.map TPar.text) := by
  intro row
  induction row with
  | nil => rfl
  | cons cell cells ih =>
    simp only [List.map_cons, map_text_applyToPar, ih]

lemma map_text_rowList (names : List String)
    (tmpl : List (String × StyleRec)) :
    ∀ tb : List (List (List TPar)),
      (tb.map (fun row => row.map (fun cell =>
          cell.map (applyToPar names tmpl)))).map
          (fun row => row.map (fun cell => cell.map TPar.text))
        = tb.map (fun row => row.map (fun cell => cell.map TPar.text)) := by
  intro tb
  induction tb with
  | nil => rfl
  | cons row rows ih =>
    simp only [List.map_cons, map_text_cellList, ih]

lemma map_text_tableList (names : List String)
    (tmpl : List (String × StyleRec)) :
    ∀ ts : List (List (List (List TPar))),
      (ts.map (fun tb => tb.map (fun row => row.map (fun cell =>
          cell.map (applyToPar names tmpl))))).map
          (fun tb => tb.map (fun row => row.map (fun cell =>
            cell.map TPar.text)))
        = ts.map (fun tb => tb.map (fun row => row.map (fun cell =>
            cell.map TPar.text))) := by
  intro ts
  induction ts with
  | nil => rfl
  | cons tb tbs ih =>
    simp only [List.map_cons, map_text_rowList, ih]

/-- C10: the style-application pass never changes any paragraph text —
the sequences of body-paragraph texts and of table-cell-paragraph texts
of the output are identical to those of the input document; only style
assignments and the style registry change. -/
theorem c10_texts_preserved (tmpl : List (String × StyleRec))
    (doc : TargetDoc) :
    (applyStylesToTarget tmpl doc).paragraphs.map TPar.text
        = doc.paragraphs.map TPar.text
    ∧ (applyStylesToTarget tmpl doc).tables.map
          (fun tb => tb.map (fun row => row.map (fun cell =>
            cell.map TPar.text)))
        = doc.tables.map (fun tb => tb.map (fun row => row.map (fun cell =>
            cell.map TPar.text))) := by
  unfold applyStylesToTarget
  exact ⟨map_text_applyToPar _ tmpl doc.paragraphs,
         map_text_tableList _ tmpl doc.tables⟩

end DocFormatter
